import Mathlib

/-!
Verification of the CV-PIC-CAD photonic-layout core against its
natural-language specification.

The development shallowly embeds the Python sources of `src/gdsGen`:

* `pdk.py` — geometry synthesis: the Euler S-bend stitching helper
  `_create_precise_euler_sbend`, the focusing-grating arc synthesis
  (`_gen_focusing_stripe`, `focusing_grating_coupler`), the
  `ring_resonator` and `tapered_input_coupler` port tables.
* `buildCircuit.py` — the placement resolver `build_circuit_from_dict`
  (anchor pass, relative pass via the gdsfactory `move` / `rotate` /
  `connect` reference operations).

Numbers parsed from the YAML netlists and the decimal literals of the
source are embedded as rationals (`ℚ`), so every definition is
executable and every concrete statement decidable.  Values produced by
the external curve engine (the measured vertical span of an extruded
bend) enter the model as explicit inputs, and the trigonometric
functions evaluated by numpy / gdsfactory are abstracted as function
parameters `cosd sind : ℚ → ℚ` taking the angle in degrees (the model
is proved for every interpretation of those parameters wherever
possible; concrete evaluations use `cosdQ` / `sindQ`, which agree with
cosine and sine on multiples of 90 degrees — the only angles occurring
in the concrete scenarios).
-/

/-! ## S-bend stitching (`pdk.py`, `_create_precise_euler_sbend`) -/

/-- Source step C, `raw_dy = abs(p2[1] - p1[1])`: the raw vertical span
between the two port centers reported by the curve engine. -/
def rawSpan (y1 y2 : ℚ) : ℚ := |y2 - y1|

/-- Source step C, unit correction:
`dbu = 0.001 if raw_dy > 500 else 1.0; bend_height = raw_dy * dbu`. -/
def measuredBendHeight (rawDy : ℚ) : ℚ :=
  if 500 < rawDy then rawDy * (1/1000) else rawDy

/-- A segment of the stitched S-bend: one of the two (identical, the
second mirrored) Euler bends, or the synthesized straight section. -/
inductive SbendSeg where
  | bendSeg (height : ℚ)
  | straightSeg (length : ℚ)
deriving DecidableEq

/-- Result of `_create_precise_euler_sbend`: the measured single-bend
height, the synthesized straight length, and the stitched segment
sequence (the straight is inserted only when `straight_length > 0.001`,
exactly as in source step E). -/
structure SbendResult where
  bendHeight : ℚ
  straightLength : ℚ
  segments : List SbendSeg
deriving DecidableEq

/-- Steps C-E of `_create_precise_euler_sbend` (`pdk.py` lines 102-152).
`rawDy` is the engine-measured span of one extruded Euler bend (steps
A-B are the external curve engine); `sinTheta` is the numeric value
`np.sin(np.radians(angle))`. -/
def create_precise_euler_sbend (rawDy dyTarget sinTheta : ℚ) : SbendResult :=
  let bendHeight := measuredBendHeight rawDy
  let minRequiredHeight := 2 * bendHeight
  let straightDyNeeded0 := dyTarget - minRequiredHeight
  let straightDyNeeded := if straightDyNeeded0 < 0 then 0 else straightDyNeeded0
  let straightLength := straightDyNeeded / sinTheta
  { bendHeight := bendHeight
    straightLength := straightLength
    segments :=
      if 1/1000 < straightLength then
        [SbendSeg.bendSeg bendHeight, SbendSeg.straightSeg straightLength,
         SbendSeg.bendSeg bendHeight]
      else
        [SbendSeg.bendSeg bendHeight, SbendSeg.bendSeg bendHeight] }

/-- C5: in S-bend stitching the synthesized straight-section length is
`max 0 (dy_target - 2 * bend_span) / sin(bend_angle)`: it is exactly 0
(and only the two mirrored bends are stitched) whenever `dy_target` is
below twice the single-bend span, it equals `(40 - 2*s)/sin(angle)` at
`dy_target = 40` whenever `2*s ≤ 40`, and the bend segments themselves
always carry the measured span unchanged (never shrunk), for every
target. -/
theorem C5_sbend_straight_length (rawDy dyTarget sinTheta : ℚ) :
    (create_precise_euler_sbend rawDy dyTarget sinTheta).straightLength
      = max 0 (dyTarget - 2 * measuredBendHeight rawDy) / sinTheta
    ∧ (dyTarget < 2 * measuredBendHeight rawDy →
        (create_precise_euler_sbend rawDy dyTarget sinTheta).straightLength = 0
        ∧ (create_precise_euler_sbend rawDy dyTarget sinTheta).segments
            = [SbendSeg.bendSeg (measuredBendHeight rawDy),
               SbendSeg.bendSeg (measuredBendHeight rawDy)])
    ∧ (2 * measuredBendHeight rawDy ≤ 40 →
        (create_precise_euler_sbend rawDy 40 sinTheta).straightLength
          = (40 - 2 * measuredBendHeight rawDy) / sinTheta)
    ∧ (∀ dy2 : ℚ,
        (create_precise_euler_sbend rawDy dy2 sinTheta).bendHeight
          = measuredBendHeight rawDy) := by
  refine ⟨?_, ?_, ?_, fun dy2 => rfl⟩
  · rcases le_or_lt 0 (dyTarget - 2 * measuredBendHeight rawDy) with h | h
    · rw [max_eq_right h]
      unfold create_precise_euler_sbend
      simp only [if_neg (not_lt.mpr h)]
    · rw [max_eq_left h.le]
      unfold create_precise_euler_sbend
      simp only [if_pos h]
  · intro h
    have h0 : dyTarget - 2 * measuredBendHeight rawDy < 0 := by linarith
    unfold create_precise_euler_sbend
    simp only [if_pos h0]
    norm_num
  · intro h
    have h0 : ¬ ((40 : ℚ) - 2 * measuredBendHeight rawDy < 0) := by linarith
    unfold create_precise_euler_sbend
    simp only [if_neg h0]

/-- Witness for C5 at a concrete measured span `s = 10`: a target of 15
is below `2*s = 20` so the straight length is clamped to 0 and only the
two bends are used, while the target 40 gives `(40 - 20)/(1/2) = 40`. -/
theorem C5_sbend_straight_length_witness :
    (create_precise_euler_sbend 10 15 (1/2)).straightLength = 0
    ∧ (create_precise_euler_sbend 10 15 (1/2)).segments
        = [SbendSeg.bendSeg 10, SbendSeg.bendSeg 10]
    ∧ (create_precise_euler_sbend 10 40 (1/2)).straightLength = 40 := by
  have hs : measuredBendHeight 10 = 10 := by norm_num [measuredBendHeight]
  have h1 := (C5_sbend_straight_length 10 15 (1/2)).2.1 (by rw [hs]; norm_num)
  have h2 := (C5_sbend_straight_length 10 40 (1/2)).2.2.1 (by rw [hs]; norm_num)
  rw [hs] at h1 h2
  exact ⟨h1.1, h1.2, h2.trans (by norm_num)⟩

/-- C6: when measuring the vertical span of a generated Euler bend, the
synthesizer detects a unit-scale mismatch exactly when the raw span
exceeds 500, in which case the used span is the raw span multiplied by
0.001 (a 1000x rescale); otherwise the raw span is used unchanged. -/
theorem C6_dbu_scale_fix (rawDy : ℚ) :
    (500 < rawDy → measuredBendHeight rawDy * 1000 = rawDy)
    ∧ (¬ 500 < rawDy → measuredBendHeight rawDy = rawDy) := by
  constructor
  · intro h
    unfold measuredBendHeight
    rw [if_pos h]
    ring
  · intro h
    unfold measuredBendHeight
    rw [if_neg h]

/-- Witness for C6: a raw span of 600 (engine reporting nanometers) is
rescaled so that 1000 times the used span recovers it, while a raw span
of 400 is used unchanged. -/
theorem C6_dbu_scale_fix_witness :
    measuredBendHeight 600 * 1000 = 600 ∧ measuredBendHeight 400 = 400 :=
  ⟨(C6_dbu_scale_fix 600).1 (by decide), (C6_dbu_scale_fix 400).2 (by decide)⟩

/-! ## Focusing-grating arc synthesis (`pdk.py`, `_gen_focusing_stripe`
and `focusing_grating_coupler`)

The trigonometric evaluations of numpy are abstracted as parameters
`cosd sind : ℚ → ℚ` taking the angle in degrees (the source composes
`np.cos` / `np.sin` with `np.radians`). -/

/-- Model of `np.linspace(a, b, n)`: `n` equally spaced samples from `a` to `b`
inclusive (for `n = 1` the quotient is `0/0 = 0` and the sample is `a`,
matching numpy). -/
def linspace (a b : ℚ) (n : ℕ) : List ℚ :=
  (List.range n).map (fun k => a + (b - a) * k / (n - 1 : ℕ))

/-- The angular samples of one stripe:
`phis = np.linspace(-theta_opening_deg/2, theta_opening_deg/2, 40)`. -/
def stripePhis (thetaOpening : ℚ) : List ℚ :=
  linspace (-thetaOpening / 2) (thetaOpening / 2) 40

/-- The stripe radius function,
`r = (q * lambda0) / (neff - n_env * cos(phi) * sin_theta)` with
`sin_theta = sin(radians(theta_deg))` precomputed (source lines
493-520). -/
def stripeRadius (cosd sind : ℚ → ℚ) (q : ℤ)
    (neff thetaDeg lambda0 nEnv phi : ℚ) : ℚ :=
  (q * lambda0) / (neff - nEnv * cosd phi * sind thetaDeg)

/-- Model of `_gen_focusing_stripe`: the inner (left) arc swept forward over the
angular samples, concatenated with the outer (right) arc swept in
reversed order, each point `(r*cos(phi) - r ∓ w/2, r*sin(phi))`. -/
def gen_focusing_stripe (cosd sind : ℚ → ℚ) (q : ℤ)
    (neff thetaDeg w thetaOpening lambda0 nEnv : ℚ) : List (ℚ × ℚ) :=
  let phis := stripePhis thetaOpening
  let pointsLeft := phis.map (fun phi =>
    let r := stripeRadius cosd sind q neff thetaDeg lambda0 nEnv phi
    (r * cosd phi - r - w / 2, r * sind phi))
  let pointsRight := phis.reverse.map (fun phi =>
    let r := stripeRadius cosd sind q neff thetaDeg lambda0 nEnv phi
    (r * cosd phi - r + w / 2, r * sind phi))
  pointsLeft ++ pointsRight

/-- Python `round` (round half to even) on an exact
rational, used for `q_min`. -/
def pyRound (x : ℚ) : ℤ :=
  let f : ℤ := ⌊x⌋
  let frac := x - f
  if frac < 1/2 then f
  else if 1/2 < frac then f + 1
  else if f % 2 = 0 then f else f + 1

/-- Effective index `neff = lambda0/pitch + np.sin(np.radians(theta_deg))`
(`focusing_grating_coupler`, source line 551). -/
def gcNeff (sind : ℚ → ℚ) (lambda0 pitch thetaDeg : ℚ) : ℚ :=
  lambda0 / pitch + sind thetaDeg

/-- Minimum order
`q_min = round(focusing_length * (neff - sin(radians(theta))) / lambda0)`
(source line 552). -/
def gcQmin (sind : ℚ → ℚ) (focusingLength lambda0 pitch thetaDeg : ℚ) : ℤ :=
  pyRound (focusingLength
    * (gcNeff sind lambda0 pitch thetaDeg - sind thetaDeg) / lambda0)

/-- Duty cycle
`duty_cycles = np.linspace(duty_cycle_start, duty_cycle_end, n_periods)`
indexed at period `i`, written with the closed linspace sample formula
(source line 553). -/
def gcDutyCycle (dStart dEnd : ℚ) (nPeriods i : ℕ) : ℚ :=
  dStart + (dEnd - dStart) * i / (nPeriods - 1 : ℕ)

/-- Hole width `w_hole = (1.0 - dc) * pitch` for period `i` (source
line 575): the
etched hole width, computed with no validation whatsoever. -/
def gcHoleWidth (dStart dEnd : ℚ) (nPeriods i : ℕ) (pitch : ℚ) : ℚ :=
  (1 - gcDutyCycle dStart dEnd nPeriods i) * pitch

/-- The per-period x translation
`shift_x = hole_origin_x + curr_x + pitch` with
`hole_origin_x = focusing_length + defocus - 1.5` and `curr_x = i * pitch`
(source lines 569-582). -/
def gcShiftX (focusingLength defocus pitch : ℚ) (i : ℕ) : ℚ :=
  (focusingLength + defocus - 1.5) + i * pitch + pitch

/-- The hole polygon of grating period `i` as built by
`focusing_grating_coupler`: the stripe generated for order
`q = q_min + (i + 1)` with the interpolated duty cycle, translated in x
(source loop, lines 573-582; `n_env` keeps its default 1.44). -/
def gcHolePolygon (cosd sind : ℚ → ℚ)
    (pitch dStart dEnd focusingLength defocus thetaDeg thetaOpening lambda0 : ℚ)
    (nPeriods i : ℕ) : List (ℚ × ℚ) :=
  let raw := gen_focusing_stripe cosd sind
    (gcQmin sind focusingLength lambda0 pitch thetaDeg + (i + 1 : ℕ))
    (gcNeff sind lambda0 pitch thetaDeg) thetaDeg
    (gcHoleWidth dStart dEnd nPeriods i pitch) thetaOpening lambda0 1.44
  raw.map (fun p => (p.1 + gcShiftX focusingLength defocus pitch i, p.2))

/-- C8: for every grating period `i < n_periods`, the hole polygon is
the forward angular sweep of the inner-radius arc concatenated with the
reverse angular sweep of the outer-radius arc, where each point has
radius `r(phi) = q * lambda0 / (neff - n_env * cos(phi) * sin(theta))`
(with `n_env = 1.44`) and the period order `q` is the computed minimum
order `q_min` offset by the (1-based) period index `i + 1`. -/
theorem C8_grating_hole_arcs (cosd sind : ℚ → ℚ)
    (pitch dStart dEnd fL dfc thetaDeg thetaOp lambda0 : ℚ)
    (nPeriods i : ℕ) (h : i < nPeriods) :
    gcHolePolygon cosd sind pitch dStart dEnd fL dfc thetaDeg thetaOp
        lambda0 nPeriods i
      = (stripePhis thetaOp).map (fun phi =>
          let q : ℤ := gcQmin sind fL lambda0 pitch thetaDeg + (i + 1 : ℕ)
          let r : ℚ := (q * lambda0)
            / (gcNeff sind lambda0 pitch thetaDeg - 1.44 * cosd phi * sind thetaDeg)
          (r * cosd phi - r - gcHoleWidth dStart dEnd nPeriods i pitch / 2
              + gcShiftX fL dfc pitch i,
           r * sind phi))
        ++ ((stripePhis thetaOp).reverse).map (fun phi =>
          let q : ℤ := gcQmin sind fL lambda0 pitch thetaDeg + (i + 1 : ℕ)
          let r : ℚ := (q * lambda0)
            / (gcNeff sind lambda0 pitch thetaDeg - 1.44 * cosd phi * sind thetaDeg)
          (r * cosd phi - r + gcHoleWidth dStart dEnd nPeriods i pitch / 2
              + gcShiftX fL dfc pitch i,
           r * sind phi)) := by
  unfold gcHolePolygon gen_focusing_stripe stripeRadius
  simp only [List.map_append, List.map_map]
  rfl

/-- Witness for C8 at a concrete parameter set (period `i = 0` of 30):
the hole polygon is exactly the forward inner arc followed by the
reversed outer arc with the stated radius formula. -/
theorem C8_grating_hole_arcs_witness :
    gcHolePolygon (fun _ => 0) (fun _ => 0) 1 (1/2) (1/2) 0 0 0 0 1 30 0
      = (stripePhis 0).map (fun phi =>
          let q : ℤ := gcQmin (fun _ => 0) 0 1 1 0 + (0 + 1 : ℕ)
          let r : ℚ := (q * 1)
            / (gcNeff (fun _ => 0) 1 1 0 - 1.44 * (fun _ => (0:ℚ)) phi * (fun _ => (0:ℚ)) 0)
          (r * (fun _ => (0:ℚ)) phi - r - gcHoleWidth (1/2) (1/2) 30 0 1 / 2
              + gcShiftX 0 0 1 0,
           r * (fun _ => (0:ℚ)) phi))
        ++ ((stripePhis 0).reverse).map (fun phi =>
          let q : ℤ := gcQmin (fun _ => 0) 0 1 1 0 + (0 + 1 : ℕ)
          let r : ℚ := (q * 1)
            / (gcNeff (fun _ => 0) 1 1 0 - 1.44 * (fun _ => (0:ℚ)) phi * (fun _ => (0:ℚ)) 0)
          (r * (fun _ => (0:ℚ)) phi - r + gcHoleWidth (1/2) (1/2) 30 0 1 / 2
              + gcShiftX 0 0 1 0,
           r * (fun _ => (0:ℚ)) phi)) :=
  C8_grating_hole_arcs (fun _ => 0) (fun _ => 0) 1 (1/2) (1/2) 0 0 0 0 1 30 0
    (by decide)

/-- The stripe always samples exactly 40 angles. -/
theorem stripePhis_length (thetaOp : ℚ) : (stripePhis thetaOp).length = 40 := by
  rfl

/-- Exact cosine values at the quarter-turn angles (degrees) occurring
in the concrete scenarios below; no other angle is ever evaluated by
those scenarios. -/
def cosdQ (a : ℚ) : ℚ :=
  if a = 0 then 1 else if a = 90 then 0 else if a = 180 then -1
  else if a = 270 then 0 else if a = 360 then 1 else 0

/-- Exact sine values at the quarter-turn angles (degrees) occurring in
the concrete scenarios below. -/
def sindQ (a : ℚ) : ℚ :=
  if a = 0 then 0 else if a = 90 then 1 else if a = 180 then 0
  else if a = 270 then -1 else if a = 360 then 0 else 1

/-- C7 counterexample: with `duty_cycle_start = duty_cycle_end = 1` and
all other parameters at their defaults, period 0 has hole width
`(1 - 1) * pitch = 0` (non-positive), yet the synthesizer does not fail:
arc generation runs and emits the full 80-point hole polygon.  The
claimed fatal `DegenerateGeometry` failure before arc generation does
not exist anywhere in the code. -/
theorem C7_degenerate_width_cex :
    gcHoleWidth 1 1 30 0 1.16 = 0
    ∧ ¬ 0 < gcHoleWidth 1 1 30 0 1.16
    ∧ (gcHolePolygon cosdQ sindQ 1.16 1 1 37.5 (-8) 20 30 1.55 30 0).length = 80 := by
  have hw : gcHoleWidth 1 1 30 0 1.16 = 0 := by
    norm_num [gcHoleWidth, gcDutyCycle]
  refine ⟨hw, by rw [hw]; norm_num, ?_⟩
  unfold gcHolePolygon gen_focusing_stripe
  rw [List.length_map, List.length_append, List.length_map, List.length_map,
    List.length_reverse, stripePhis_length]

/-- C7 as amended: grating synthesis performs no hole-width validation
at all — for every parameter set and period the 80-point hole polygon
is generated unconditionally, and when the computed width is zero the
emitted hole is the degenerate (zero-area) polygon consisting of one
arc followed by its own reversal. -/
theorem C7_no_width_validation (cosd sind : ℚ → ℚ)
    (pitch dStart dEnd fL dfc thetaDeg thetaOp lambda0 : ℚ)
    (nPeriods i : ℕ) :
    (gcHolePolygon cosd sind pitch dStart dEnd fL dfc thetaDeg thetaOp
        lambda0 nPeriods i).length = 80
    ∧ (gcHoleWidth dStart dEnd nPeriods i pitch = 0 →
        gcHolePolygon cosd sind pitch dStart dEnd fL dfc thetaDeg thetaOp
            lambda0 nPeriods i
          = (stripePhis thetaOp).map (fun phi =>
              let q : ℤ := gcQmin sind fL lambda0 pitch thetaDeg + (i + 1 : ℕ)
              let r : ℚ := stripeRadius cosd sind q
                (gcNeff sind lambda0 pitch thetaDeg) thetaDeg lambda0 1.44 phi
              (r * cosd phi - r + gcShiftX fL dfc pitch i, r * sind phi))
            ++ ((stripePhis thetaOp).map (fun phi =>
              let q : ℤ := gcQmin sind fL lambda0 pitch thetaDeg + (i + 1 : ℕ)
              let r : ℚ := stripeRadius cosd sind q
                (gcNeff sind lambda0 pitch thetaDeg) thetaDeg lambda0 1.44 phi
              (r * cosd phi - r + gcShiftX fL dfc pitch i, r * sind phi))).reverse) := by
  constructor
  · unfold gcHolePolygon gen_focusing_stripe
    rw [List.length_map, List.length_append, List.length_map, List.length_map,
      List.length_reverse, stripePhis_length]
  · intro hw
    unfold gcHolePolygon gen_focusing_stripe
    rw [hw]
    simp only [List.map_append, List.map_map, List.map_reverse]
    congr 1
    · apply List.map_congr_left
      intro phi _
      simp [Function.comp]
    · congr 1
      apply List.map_congr_left
      intro phi _
      simp [Function.comp]

/-- Witness for C7 as amended, at the degenerate input
`duty_cycle_start = duty_cycle_end = 1` (hole width 0) with the other
parameters at their source defaults: the 80-point degenerate hole is
emitted. -/
theorem C7_no_width_validation_witness :
    (gcHolePolygon cosdQ sindQ 1.16 1 1 37.5 (-8) 20 30 1.55 30 0).length = 80
    ∧ gcHolePolygon cosdQ sindQ 1.16 1 1 37.5 (-8) 20 30 1.55 30 0
        = (stripePhis 30).map (fun phi =>
            let q : ℤ := gcQmin sindQ 37.5 1.55 1.16 20 + (0 + 1 : ℕ)
            let r : ℚ := stripeRadius cosdQ sindQ q
              (gcNeff sindQ 1.55 1.16 20) 20 1.55 1.44 phi
            (r * cosdQ phi - r + gcShiftX 37.5 (-8) 1.16 0, r * sindQ phi))
          ++ ((stripePhis 30).map (fun phi =>
            let q : ℤ := gcQmin sindQ 37.5 1.55 1.16 20 + (0 + 1 : ℕ)
            let r : ℚ := stripeRadius cosdQ sindQ q
              (gcNeff sindQ 1.55 1.16 20) 20 1.55 1.44 phi
            (r * cosdQ phi - r + gcShiftX 37.5 (-8) 1.16 0, r * sindQ phi))).reverse := by
  have h := C7_no_width_validation cosdQ sindQ 1.16 1 1 37.5 (-8) 20 30 1.55 30 0
  exact ⟨h.1, h.2 (by norm_num [gcHoleWidth, gcDutyCycle])⟩

/-! ## Component port tables (`pdk.py`)

A port is a named attachment point in the local frame of a component:
center, facing direction in degrees, and waveguide width.  The tables
below are derived from the gdsfactory reference chains of the source:
`gf.components.straight(length=L)` has `o1` at `(0,0)` facing 180 and
`o2` at `(L,0)` facing 0, `gf.components.taper(length=L)` likewise, a
reference placed with `ref.x = 0` is centered horizontally, and
`ref.connect(p, q)` places port `p` on `q` facing back at it. -/

structure Port where
  center : ℚ × ℚ
  orientation : ℚ
  width : ℚ
deriving DecidableEq

/-- Ports of `ring_resonator` (`pdk.py` lines 384-469).  The two bus
waveguides are straights of length `bus_length = 2*radius + 100`
centered at `x = 0` and placed at `y = ∓bus_offset` with
`bus_offset = radius + ringWgWidth/2 + couplingGap + wgWidth/2`.
`o1`/`o2` are the bottom-bus ends; with `isDoubleSided` the top bus
contributes `o3` (east) and `o4` (west), otherwise the same two
locations are exposed as phantom ports (no underlying geometry), added
in the order `o4` then `o3`. -/
def ring_resonator (radius : ℚ) (isDoubleSided : Bool)
    (couplingGap wgWidth ringWgWidth : ℚ) : List (String × Port) :=
  let busOffset := radius + ringWgWidth / 2 + couplingGap + wgWidth / 2
  let busLength := 2 * radius + 100
  [("o1", ⟨(-busLength / 2, -busOffset), 180, wgWidth⟩),
   ("o2", ⟨(busLength / 2, -busOffset), 0, wgWidth⟩)]
  ++ (if isDoubleSided then
        [("o3", ⟨(busLength / 2, busOffset), 0, wgWidth⟩),
         ("o4", ⟨(-busLength / 2, busOffset), 180, wgWidth⟩)]
      else
        [("o4", ⟨(-busLength / 2, busOffset), 180, wgWidth⟩),
         ("o3", ⟨(busLength / 2, busOffset), 0, wgWidth⟩)])

/-- Ports of `tapered_input_coupler` (`pdk.py` lines 6-87): the dicing
straight spans `[0, dicingClearance]`, the main taper continues to
`dicingClearance + taperLength` (output `o2`, width `wgWidth`); with
the tab, the 5 um tab taper and 5 um tab straight extend left of the
origin so the exposed input `o1` sits at `(-10, 0)` with the hardcoded
tab width 5; without the tab `o1` is the dicing-straight input at the
origin with width `taperWidth`. -/
def tapered_input_coupler (taperLength taperWidth wgWidth dicingClearance : ℚ)
    (isTab : Bool) : List (String × Port) :=
  if isTab then
    [("o1", ⟨(-10, 0), 180, 5⟩),
     ("o2", ⟨(dicingClearance + taperLength, 0), 0, wgWidth⟩)]
  else
    [("o1", ⟨(0, 0), 180, taperWidth⟩),
     ("o2", ⟨(dicingClearance + taperLength, 0), 0, wgWidth⟩)]

/-- Port of `focusing_grating_coupler` (`pdk.py` lines 595-617): the
input taper of length `max(10, 100 - L_total)` is mirrored so its
narrow end (exposed as `o1`, width `wg_width`) sits at
`(-input_taper_len, 0)` facing 180, with
`L_total = focusing_length + defocus + pitch * n_periods`. -/
def focusing_grating_coupler_ports (pitch : ℚ) (nPeriods : ℕ)
    (wgWidth focusingLength defocus : ℚ) : List (String × Port) :=
  let lTotal := focusingLength + defocus + pitch * nPeriods
  let inputTaperLen := max 10 (100 - lTotal)
  [("o1", ⟨(-inputTaperLen, 0), 180, wgWidth⟩)]

/-! ## Purity and memoization of geometry synthesis -/

/-- A geometry-synthesis request: a component type together with its
full parameter set (the memoization key licensed by the purity of the
synthesizer). -/
inductive SynthCall where
  | ticCall (taperLength taperWidth wgWidth dicingClearance : ℚ) (isTab : Bool)
  | ringCall (radius : ℚ) (isDoubleSided : Bool)
      (couplingGap wgWidth ringWgWidth : ℚ)
  | fgcCall (pitch : ℚ) (nPeriods : ℕ) (wgWidth focusingLength defocus : ℚ)
deriving DecidableEq

/-- Dispatch from component type to the synthesis function — the pure
`synthesize(component_type, settings)` of the specification. -/
def synthesize : SynthCall → List (String × Port)
  | SynthCall.ticCall tl tw ww dc tab => tapered_input_coupler tl tw ww dc tab
  | SynthCall.ringCall r d g ww rw => ring_resonator r d g ww rw
  | SynthCall.fgcCall p n ww fl df => focusing_grating_coupler_ports p n ww fl df

/-- Lookup in the process-wide memoization cache (the `@gf.cell`
cache keyed by type and settings). -/
def cacheFind (k : SynthCall) :
    List (SynthCall × List (String × Port)) → Option (List (String × Port))
  | [] => none
  | (k2, g) :: rest => if k2 = k then some g else cacheFind k rest

/-- Evaluate a sequence of synthesis requests through the shared cache:
a hit returns the cached geometry, a miss computes and inserts it. -/
def runSynthCalls : List SynthCall → List (SynthCall × List (String × Port)) →
    List (List (String × Port)) × List (SynthCall × List (String × Port))
  | [], cache => ([], cache)
  | k :: ks, cache =>
    match cacheFind k cache with
    | some g =>
      let rest := runSynthCalls ks cache
      (g :: rest.1, rest.2)
    | none =>
      let g := synthesize k
      let rest := runSynthCalls ks ((k, g) :: cache)
      (g :: rest.1, rest.2)

/-- A cache is consistent when every stored geometry is the pure
synthesis result for its key. -/
def CacheConsistent (cache : List (SynthCall × List (String × Port))) : Prop :=
  ∀ kg ∈ cache, kg.2 = synthesize kg.1

theorem cacheFind_of_consistent {cache : List (SynthCall × List (String × Port))}
    (hc : CacheConsistent cache) {k : SynthCall} {g : List (String × Port)}
    (h : cacheFind k cache = some g) : g = synthesize k := by
  induction cache with
  | nil => simp [cacheFind] at h
  | cons kg rest ih =>
    obtain ⟨k2, g2⟩ := kg
    by_cases hk : k2 = k
    · simp [cacheFind, hk] at h
      subst hk
      rw [← h]
      exact hc ⟨k2, g2⟩ (List.mem_cons_self _ _)
    · simp [cacheFind, hk] at h
      exact ih (fun kg hm => hc kg (List.mem_cons_of_mem _ hm)) h

/-- C9: geometry synthesis is a pure function of the request.  Run
through any consistent shared memoization cache (in particular the
empty one), every request in every call sequence returns exactly the
pure synthesis result for its type and settings — so two calls with
identical type and settings yield identical port tables, with no
dependency on call order, placement, or prior cache contents — and the
cache stays consistent. -/
theorem C9_synthesis_pure (calls : List SynthCall)
    (cache : List (SynthCall × List (String × Port)))
    (hc : CacheConsistent cache) :
    (runSynthCalls calls cache).1 = calls.map synthesize
    ∧ CacheConsistent (runSynthCalls calls cache).2 := by
  induction calls generalizing cache with
  | nil => exact ⟨rfl, hc⟩
  | cons k ks ih =>
    cases hfind : cacheFind k cache with
    | some g =>
      have hg : g = synthesize k := cacheFind_of_consistent hc hfind
      have hrest := ih cache hc
      simp only [runSynthCalls, hfind]
      exact ⟨by rw [List.map_cons, hrest.1, hg], hrest.2⟩
    | none =>
      have hc2 : CacheConsistent ((k, synthesize k) :: cache) := by
        intro kg hm
        rcases List.mem_cons.mp hm with h | h
        · rw [h]
        · exact hc kg h
      have hrest := ih ((k, synthesize k) :: cache) hc2
      simp only [runSynthCalls, hfind]
      exact ⟨by rw [List.map_cons, hrest.1], hrest.2⟩

/-- Witness for C9: two identical ring-resonator requests through an
initially empty cache both return the pure synthesis result (the second
one served from the cache). -/
theorem C9_synthesis_pure_witness :
    (runSynthCalls [SynthCall.ringCall 200 true 1 1.2 1.2,
                    SynthCall.ringCall 200 true 1 1.2 1.2] []).1
      = [synthesize (SynthCall.ringCall 200 true 1 1.2 1.2),
         synthesize (SynthCall.ringCall 200 true 1 1.2 1.2)] :=
  (C9_synthesis_pure
    [SynthCall.ringCall 200 true 1 1.2 1.2, SynthCall.ringCall 200 true 1 1.2 1.2]
    [] (fun kg hm => absurd hm (List.not_mem_nil kg))).1

/-- C10: `ring_resonator` always exposes exactly the four ports
`o1`-`o4`; when `isDoubleSided` is false, `o3` and `o4` are phantom
ports at `(bus_length/2, bus_offset)` and `(-bus_length/2, bus_offset)`
with the bus width and orientations 0 and 180 respectively, so routers
see all four ports either way. -/
theorem C10_ring_resonator_ports (radius : ℚ) (isDoubleSided : Bool)
    (couplingGap wgWidth ringWgWidth : ℚ) :
    ((ring_resonator radius isDoubleSided couplingGap wgWidth ringWgWidth).map
        Prod.fst).Perm ["o1", "o2", "o3", "o4"]
    ∧ (isDoubleSided = false →
        ring_resonator radius isDoubleSided couplingGap wgWidth ringWgWidth
          = [("o1", ⟨(-(2 * radius + 100) / 2,
                -(radius + ringWgWidth / 2 + couplingGap + wgWidth / 2)),
                180, wgWidth⟩),
             ("o2", ⟨((2 * radius + 100) / 2,
                -(radius + ringWgWidth / 2 + couplingGap + wgWidth / 2)),
                0, wgWidth⟩),
             ("o4", ⟨(-(2 * radius + 100) / 2,
                radius + ringWgWidth / 2 + couplingGap + wgWidth / 2),
                180, wgWidth⟩),
             ("o3", ⟨((2 * radius + 100) / 2,
                radius + ringWgWidth / 2 + couplingGap + wgWidth / 2),
                0, wgWidth⟩)]) := by
  cases isDoubleSided with
  | false =>
    refine ⟨?_, fun _ => by simp [ring_resonator]⟩
    have hnames : (ring_resonator radius false couplingGap wgWidth
        ringWgWidth).map Prod.fst = ["o1", "o2", "o4", "o3"] := by
      simp [ring_resonator]
    rw [hnames]
    decide
  | true =>
    refine ⟨?_, fun h => Bool.noConfusion h⟩
    have hnames : (ring_resonator radius true couplingGap wgWidth
        ringWgWidth).map Prod.fst = ["o1", "o2", "o3", "o4"] := by
      simp [ring_resonator]
    rw [hnames]

/-- Witness for C10 at the source defaults with `isDoubleSided = false`:
all four ports exist and the phantom `o4`/`o3` land at the stated
positions. -/
theorem C10_ring_resonator_ports_witness :
    ((ring_resonator 200 false 1 1.2 1.2).map Prod.fst).Perm
        ["o1", "o2", "o3", "o4"]
    ∧ ring_resonator 200 false 1 1.2 1.2
        = [("o1", ⟨(-(2 * 200 + 100) / 2,
              -(200 + 1.2 / 2 + 1 + 1.2 / 2)), 180, 1.2⟩),
           ("o2", ⟨((2 * 200 + 100) / 2,
              -(200 + 1.2 / 2 + 1 + 1.2 / 2)), 0, 1.2⟩),
           ("o4", ⟨(-(2 * 200 + 100) / 2,
              200 + 1.2 / 2 + 1 + 1.2 / 2), 180, 1.2⟩),
           ("o3", ⟨((2 * 200 + 100) / 2,
              200 + 1.2 / 2 + 1 + 1.2 / 2), 0, 1.2⟩)] :=
  ⟨(C10_ring_resonator_ports 200 false 1 1.2 1.2).1,
   (C10_ring_resonator_ports 200 false 1 1.2 1.2).2 rfl⟩

/-! ## Placement resolver (`buildCircuit.py`, `build_circuit_from_dict`)

The resolver operates on gdsfactory component references.  A reference
carries a transform — rotation in degrees plus a translation — mapping
the local frame of the component into the world frame; `add_ref` leaves
it at the identity.  The reference operations used by the source are
embedded with their documented gdsfactory semantics:

* `ref.move((dx, dy))` translates by `(dx, dy)`;
* `ref.rotate(a)` rotates the reference by `a` degrees about the world
  origin `(0, 0)` (the documented default center);
* `ref.connect(p, q)` re-derives the whole transform so that local port
  `p` lands on the world port `q` facing back at it (world orientation
  of `p` becomes that of `q` plus 180).

Rotations act through an abstract interpretation `Rotator` of the
degree-argument cosine and sine used by the geometry engine. -/

structure Rotator where
  cosd : ℚ → ℚ
  sind : ℚ → ℚ

/-- The concrete interpretation on quarter-turn angles. -/
def RotQ : Rotator := ⟨cosdQ, sindQ⟩

/-- Rotate a point about the origin by `a` degrees. -/
def rotP (R : Rotator) (a : ℚ) (p : ℚ × ℚ) : ℚ × ℚ :=
  (R.cosd a * p.1 - R.sind a * p.2, R.sind a * p.1 + R.cosd a * p.2)

def addP (p q : ℚ × ℚ) : ℚ × ℚ := (p.1 + q.1, p.2 + q.2)

def subP (p q : ℚ × ℚ) : ℚ × ℚ := (p.1 - q.1, p.2 - q.2)

/-- The transform of a placed reference: rotation (degrees) and
world position of the local origin. -/
structure Transform where
  rotation : ℚ
  pos : ℚ × ℚ
deriving DecidableEq

/-- A freshly added reference (`c.add_ref`) sits at the identity. -/
def identityTransform : Transform := ⟨0, (0, 0)⟩

/-- World position of a local port under a transform. -/
def worldPortPos (R : Rotator) (T : Transform) (p : Port) : ℚ × ℚ :=
  addP T.pos (rotP R T.rotation p.center)

/-- An anchor placement entry: `{x, y, rotation}` (defaults 0). -/
structure AnchorData where
  x : ℚ
  y : ℚ
  rotation : ℚ
deriving DecidableEq

/-- A relative placement entry:
`{to: "toInst,toPort", port: myPort, dx, dy, rotation}`. -/
structure RelData where
  toInst : String
  toPort : String
  myPort : String
  dx : ℚ
  dy : ℚ
  rotation : ℚ
deriving DecidableEq

/-- A placement entry is an anchor exactly when it has no `to` key. -/
inductive PlaceEntry where
  | anchorE (a : AnchorData)
  | relE (r : RelData)
deriving DecidableEq

/-- A parsed netlist: named instances (with their synthesized port
tables) and named placement entries, both in declaration order. -/
structure Netlist where
  instances : List (String × List (String × Port))
  placements : List (String × PlaceEntry)

def instNames (nl : Netlist) : List String := nl.instances.map Prod.fst

/-- First-match association lookup (Python dict access). -/
def lookupStr {α : Type} (k : String) : List (String × α) → Option α
  | [] => none
  | (k2, v) :: rest => if k2 = k then some v else lookupStr k rest

/-- The local port `pname` of instance `inst`, if both exist. -/
def portOf (nl : Netlist) (inst pname : String) : Option Port :=
  (lookupStr inst nl.instances).bind (fun g => lookupStr pname g)

/-- The diagnostics the resolver can print; every one is a non-fatal
`[WARNING]` in the source — resolution itself never aborts. -/
inductive Warn where
  | missingInstance (name : String)
  | missingTarget (name target : String)
  | missingTargetPort (name target port : String)
  | connectFailed (name : String)
deriving DecidableEq

/-- Anchor placement (source lines 79-101): `ref.move((x, y))` from the
identity, then `ref.rotate(rotation)` about the origin only when the
rotation is nonzero. -/
def anchorTransform (R : Rotator) (a : AnchorData) : Transform :=
  if a.rotation = 0 then ⟨0, (a.x, a.y)⟩
  else ⟨a.rotation, rotP R a.rotation (a.x, a.y)⟩

/-- Model of `ref.connect(my_port, target_ref.ports[target_port])`: the new
rotation makes the local port face back at the target port, and the new
position puts it exactly on the target port. -/
def connectTransform (R : Rotator) (tgt : Transform) (tp mp : Port) : Transform :=
  let rot := tgt.rotation + tp.orientation + 180 - mp.orientation
  ⟨rot, subP (worldPortPos R tgt tp) (rotP R rot mp.center)⟩

/-- Relative placement of one instance (source lines 130-146): connect,
then `ref.move((dx, dy))` (the source skips the call when both offsets
are zero, which moves by `(0, 0)` — identical), then
`ref.rotate(rotation)` about the origin when nonzero. -/
def relTransform (R : Rotator) (tgt : Transform) (tp mp : Port)
    (r : RelData) : Transform :=
  let t1 := connectTransform R tgt tp mp
  let p2 := addP t1.pos (r.dx, r.dy)
  if r.rotation = 0 then ⟨t1.rotation, p2⟩
  else ⟨t1.rotation + r.rotation, rotP R r.rotation p2⟩

/-- Point update of the transform table. -/
def updT (f : String → Transform) (n : String) (T : Transform) :
    String → Transform :=
  fun m => if m = n then T else f m

/-- One step of the anchor pass (source lines 79-101; the instance-name
check of lines 80-82 warns and skips). -/
def doAnchor (R : Rotator) (nl : Netlist)
    (st : (String → Transform) × List Warn) (e : String × AnchorData) :
    (String → Transform) × List Warn :=
  if e.1 ∈ instNames nl then (updT st.1 e.1 (anchorTransform R e.2), st.2)
  else (st.1, st.2 ++ [Warn.missingInstance e.1])

/-- One step of the relative pass (source lines 104-150): the checks on
the instance, the target instance and the target port each print a
warning and skip; a missing own port raises inside `ref.connect` and is
caught as a warning (skip); otherwise connect / move / rotate against
the CURRENT transform of the target. -/
def doRel (R : Rotator) (nl : Netlist)
    (st : (String → Transform) × List Warn) (e : String × RelData) :
    (String → Transform) × List Warn :=
  let n := e.1
  let r := e.2
  if n ∈ instNames nl then
    if r.toInst ∈ instNames nl then
      match portOf nl r.toInst r.toPort with
      | none => (st.1, st.2 ++ [Warn.missingTargetPort n r.toInst r.toPort])
      | some tp =>
        match portOf nl n r.myPort with
        | none => (st.1, st.2 ++ [Warn.connectFailed n])
        | some mp =>
          (updT st.1 n (relTransform R (st.1 r.toInst) tp mp r), st.2)
    else (st.1, st.2 ++ [Warn.missingTarget n r.toInst])
  else (st.1, st.2 ++ [Warn.missingInstance n])

/-- The placements without a `to` key, in declaration order
(source lines 69-76). -/
def anchorsOf (nl : Netlist) : List (String × AnchorData) :=
  nl.placements.filterMap (fun e =>
    match e.2 with
    | PlaceEntry.anchorE a => some (e.1, a)
    | PlaceEntry.relE _ => none)

/-- The placements with a `to` key, in declaration order. -/
def relsOf (nl : Netlist) : List (String × RelData) :=
  nl.placements.filterMap (fun e =>
    match e.2 with
    | PlaceEntry.anchorE _ => none
    | PlaceEntry.relE r => some (e.1, r))

/-- The whole second pass of `build_circuit_from_dict`: every reference
starts at the identity, all anchors are placed first, then every
relative placement is processed once, in declaration order.  The result
is the final transform table together with the printed warnings; there
is no failure outcome. -/
def resolveNetlist (R : Rotator) (nl : Netlist) :
    (String → Transform) × List Warn :=
  let st0 : (String → Transform) × List Warn := (fun _ => identityTransform, [])
  let st1 := (anchorsOf nl).foldl (doAnchor R nl) st0
  (relsOf nl).foldl (doRel R nl) st1

/-- World position of a named port of a named instance after
resolution. -/
def resolvedPortPos (R : Rotator) (nl : Netlist) (inst pname : String) :
    Option (ℚ × ℚ) :=
  (portOf nl inst pname).map
    (fun p => worldPortPos R ((resolveNetlist R nl).1 inst) p)

/-- The concrete scenario of the specification: one anchor `ring_1` at
`(0, 0, 0)` (a default `ring_resonator`) and `coupler_1` (a default
`tapered_input_coupler`) placed relatively with
`to: ring_1,o1`, `port: o2`, `dx: -200`, `dy: 0`. -/
def ringCouplerNetlist : Netlist :=
  { instances :=
      [("ring_1", ring_resonator 200 true 1 1.2 1.2),
       ("coupler_1", tapered_input_coupler 200 0.5 1.2 50 true)],
    placements :=
      [("ring_1", PlaceEntry.anchorE ⟨0, 0, 0⟩),
       ("coupler_1", PlaceEntry.relE ⟨"ring_1", "o1", "o2", -200, 0, 0⟩)] }

/-- C1 as amended: for every relative placement whose declared rotation
delta is ZERO, the world position of `my_port` after placement equals
the world position of the target port plus the declared `(dx, dy)` —
for every trigonometric interpretation, every target transform and all
port tables; and in the concrete ring/coupler scenario, `coupler_1.o2`
lands exactly at `(-200 + ring_1.o1.x, ring_1.o1.y) = (-450, -1011/5)`.
(The unamended claim, quantifying over ALL relative placements, fails
for nonzero rotation deltas: the trailing `ref.rotate` spins the placed
instance about the world origin, moving `my_port` off the target — see
the counterexample.) -/
theorem C1_relative_offset_alignment (R : Rotator) (tgt : Transform)
    (tp mp : Port) (r : RelData) (h : r.rotation = 0) :
    worldPortPos R (relTransform R tgt tp mp r) mp
      = addP (worldPortPos R tgt tp) (r.dx, r.dy)
    ∧ Option.map (fun p => addP p (-200, 0))
        (resolvedPortPos RotQ ringCouplerNetlist "ring_1" "o1")
      = resolvedPortPos RotQ ringCouplerNetlist "coupler_1" "o2"
    ∧ resolvedPortPos RotQ ringCouplerNetlist "ring_1" "o1"
        = some (-250, -1011/5)
    ∧ resolvedPortPos RotQ ringCouplerNetlist "coupler_1" "o2"
        = some (-450, -1011/5) := by
  refine ⟨?_, ?_, ?_, ?_⟩
  · rcases r with ⟨ti, tpn, mpn, dx, dy, rot⟩
    simp only at h
    subst h
    simp [relTransform, connectTransform, worldPortPos, addP, subP, rotP]
    exact ⟨by ring, by ring⟩
  · simp [resolvedPortPos, resolveNetlist, anchorsOf, relsOf, doAnchor, doRel,
      portOf, lookupStr, instNames, updT, anchorTransform, relTransform,
      connectTransform, worldPortPos, rotP, addP, subP, RotQ,
      ringCouplerNetlist, ring_resonator, tapered_input_coupler,
      identityTransform] <;>
      norm_num [cosdQ, sindQ]
  · simp [resolvedPortPos, resolveNetlist, anchorsOf, relsOf, doAnchor, doRel,
      portOf, lookupStr, instNames, updT, anchorTransform, relTransform,
      connectTransform, worldPortPos, rotP, addP, subP, RotQ,
      ringCouplerNetlist, ring_resonator, tapered_input_coupler,
      identityTransform] <;>
      norm_num [cosdQ, sindQ]
  · simp [resolvedPortPos, resolveNetlist, anchorsOf, relsOf, doAnchor, doRel,
      portOf, lookupStr, instNames, updT, anchorTransform, relTransform,
      connectTransform, worldPortPos, rotP, addP, subP, RotQ,
      ringCouplerNetlist, ring_resonator, tapered_input_coupler,
      identityTransform] <;>
      norm_num [cosdQ, sindQ]

/-- Witness for C1 as amended: a zero-rotation relative placement with
`(dx, dy) = (7, -3)` against a target transform `⟨90, (5, 6)⟩` puts the
own port exactly `(7, -3)` away from the target port. -/
theorem C1_relative_offset_alignment_witness :
    worldPortPos RotQ
        (relTransform RotQ ⟨90, (5, 6)⟩ ⟨(1, 2), 0, 1⟩ ⟨(3, 4), 0, 1⟩
          ⟨"t", "p", "q", 7, -3, 0⟩) ⟨(3, 4), 0, 1⟩
      = addP (worldPortPos RotQ ⟨90, (5, 6)⟩ ⟨(1, 2), 0, 1⟩) (7, -3)
    ∧ resolvedPortPos RotQ ringCouplerNetlist "coupler_1" "o2"
        = some (-450, -1011/5) :=
  ⟨(C1_relative_offset_alignment RotQ ⟨90, (5, 6)⟩ ⟨(1, 2), 0, 1⟩ ⟨(3, 4), 0, 1⟩
      ⟨"t", "p", "q", 7, -3, 0⟩ rfl).1,
   (C1_relative_offset_alignment RotQ ⟨90, (5, 6)⟩ ⟨(1, 2), 0, 1⟩ ⟨(3, 4), 0, 1⟩
      ⟨"t", "p", "q", 7, -3, 0⟩ rfl).2.2.2⟩

/-- A relative placement carrying a nonzero rotation delta of 90
degrees: `A` is anchored at `(10, 0)` and `B` is connected port-to-port
onto `A` with `dx = dy = 0`. -/
def rotDeltaNetlist : Netlist :=
  { instances :=
      [("A", [("p", ⟨(0, 0), 0, 1⟩)]),
       ("B", [("p", ⟨(0, 0), 0, 1⟩)])],
    placements :=
      [("A", PlaceEntry.anchorE ⟨10, 0, 0⟩),
       ("B", PlaceEntry.relE ⟨"A", "p", "p", 0, 0, 90⟩)] }

/-- C1 counterexample: with a declared rotation delta of 90 the claimed
equality fails — `B.p` ends at `(0, 10)` although the target port plus
the declared `(0, 0)` offset is `(10, 0)`: the trailing rotation about
the world origin moves the just-aligned port. -/
theorem C1_rotation_delta_cex :
    resolvedPortPos RotQ rotDeltaNetlist "A" "p" = some (10, 0)
    ∧ resolvedPortPos RotQ rotDeltaNetlist "B" "p" = some (0, 10)
    ∧ resolvedPortPos RotQ rotDeltaNetlist "B" "p"
        ≠ Option.map (fun p => addP p (0, 0))
            (resolvedPortPos RotQ rotDeltaNetlist "A" "p") := by
  have hA : resolvedPortPos RotQ rotDeltaNetlist "A" "p" = some (10, 0) := by
    simp [resolvedPortPos, resolveNetlist, anchorsOf, relsOf, doAnchor, doRel,
      portOf, lookupStr, instNames, updT, anchorTransform, relTransform,
      connectTransform, worldPortPos, rotP, addP, subP, RotQ,
      rotDeltaNetlist, identityTransform] <;>
      norm_num [cosdQ, sindQ]
  have hB : resolvedPortPos RotQ rotDeltaNetlist "B" "p" = some (0, 10) := by
    simp [resolvedPortPos, resolveNetlist, anchorsOf, relsOf, doAnchor, doRel,
      portOf, lookupStr, instNames, updT, anchorTransform, relTransform,
      connectTransform, worldPortPos, rotP, addP, subP, RotQ,
      rotDeltaNetlist, identityTransform] <;>
      norm_num [cosdQ, sindQ]
  refine ⟨hA, hB, ?_⟩
  rw [hA, hB]
  norm_num [addP, Prod.ext_iff]

/-- The anchor pass never touches the transform of a name that is not
one of its keys. -/
theorem foldl_doAnchor_not_mem (R : Rotator) (nl : Netlist)
    (es : List (String × AnchorData))
    (st : (String → Transform) × List Warn) (m : String)
    (hm : ∀ e ∈ es, e.1 ≠ m) :
    ((es.foldl (doAnchor R nl) st).1) m = st.1 m := by
  induction es generalizing st with
  | nil => rfl
  | cons e rest ih =>
    rw [List.foldl_cons,
      ih _ (fun x hx => hm x (List.mem_cons_of_mem _ hx))]
    simp only [doAnchor]
    by_cases hc : e.1 ∈ instNames nl
    · simp only [if_pos hc, updT]
      rw [if_neg (fun hEq => hm e (List.mem_cons_self e rest) hEq.symm)]
    · simp only [if_neg hc]

/-- The relative pass never touches the transform of a name that is not
one of its keys. -/
theorem foldl_doRel_not_mem (R : Rotator) (nl : Netlist)
    (es : List (String × RelData))
    (st : (String → Transform) × List Warn) (m : String)
    (hm : ∀ e ∈ es, e.1 ≠ m) :
    ((es.foldl (doRel R nl) st).1) m = st.1 m := by
  induction es generalizing st with
  | nil => rfl
  | cons e rest ih =>
    rw [List.foldl_cons,
      ih _ (fun x hx => hm x (List.mem_cons_of_mem _ hx))]
    simp only [doRel]
    by_cases h1 : e.1 ∈ instNames nl
    · simp only [if_pos h1]
      by_cases h2 : e.2.toInst ∈ instNames nl
      · simp only [if_pos h2]
        cases hp : portOf nl e.2.toInst e.2.toPort with
        | none => rfl
        | some tp =>
          cases hq : portOf nl e.1 e.2.myPort with
          | none => rfl
          | some mp =>
            simp only [updT]
            rw [if_neg (fun hEq => hm e (List.mem_cons_self e rest) hEq.symm)]
      · simp only [if_neg h2]
    · simp only [if_neg h1]

/-- In an association list with nodup keys, a key determines its
value. -/
theorem eq_of_nodup_keys {β : Type} {l : List (String × β)}
    (hnd : (l.map Prod.fst).Nodup) {k : String} {x y : β}
    (hx : (k, x) ∈ l) (hy : (k, y) ∈ l) : x = y := by
  induction l with
  | nil => cases hx
  | cons e rest ih =>
    rw [List.map_cons, List.nodup_cons] at hnd
    rcases List.mem_cons.mp hx with hx1 | hx1
    · rcases List.mem_cons.mp hy with hy1 | hy1
      · exact (Prod.mk.injEq _ _ _ _ ▸ (hx1.trans hy1.symm)).2
      · exfalso
        rw [← hx1] at hnd
        exact hnd.1 (List.mem_map.mpr ⟨(k, y), hy1, rfl⟩)
    · rcases List.mem_cons.mp hy with hy1 | hy1
      · exfalso
        rw [← hy1] at hnd
        exact hnd.1 (List.mem_map.mpr ⟨(k, x), hx1, rfl⟩)
      · exact ih hnd.2 hx1 hy1

/-- The anchor keys are a sublist of the placement keys. -/
theorem anchorsOf_keys_sublist (nl : Netlist) :
    ((anchorsOf nl).map Prod.fst).Sublist (nl.placements.map Prod.fst) := by
  unfold anchorsOf
  induction nl.placements with
  | nil => simp
  | cons e rest ih =>
    cases he : e.2 with
    | anchorE a =>
      simpa [List.filterMap_cons, he] using List.Sublist.cons₂ e.1 ih
    | relE r =>
      simpa [List.filterMap_cons, he] using List.Sublist.cons e.1 ih

/-- Anchor placements reach the anchor pass. -/
theorem mem_anchorsOf {nl : Netlist} {n : String} {a : AnchorData}
    (h : (n, PlaceEntry.anchorE a) ∈ nl.placements) : (n, a) ∈ anchorsOf nl :=
  List.mem_filterMap.mpr ⟨(n, PlaceEntry.anchorE a), h, rfl⟩

/-- Relative-pass entries come from relative placements. -/
theorem mem_of_relsOf {nl : Netlist} {e : String × RelData}
    (h : e ∈ relsOf nl) : (e.1, PlaceEntry.relE e.2) ∈ nl.placements := by
  rcases List.mem_filterMap.mp h with ⟨x, hx, hfx⟩
  obtain ⟨xn, xe⟩ := x
  cases xe with
  | anchorE a => simp at hfx
  | relE r =>
    have hxe : (xn, r) = e := by simpa using hfx
    rw [← hxe]
    simpa using hx

/-- With nodup anchor keys, the anchor pass places each listed anchor
at exactly its anchor transform. -/
theorem foldl_doAnchor_mem (R : Rotator) (nl : Netlist)
    (es : List (String × AnchorData))
    (st : (String → Transform) × List Warn) {n : String} {a : AnchorData}
    (hnd : (es.map Prod.fst).Nodup) (hin : (n, a) ∈ es)
    (hinst : n ∈ instNames nl) :
    ((es.foldl (doAnchor R nl) st).1) n = anchorTransform R a := by
  induction es generalizing st with
  | nil => cases hin
  | cons e rest ih =>
    rw [List.map_cons, List.nodup_cons] at hnd
    rcases List.mem_cons.mp hin with h1 | h1
    · have hn : e.1 = n := by rw [← h1]
      rw [List.foldl_cons]
      have hne : ∀ x ∈ rest, x.1 ≠ n := by
        intro x hx hEq
        apply hnd.1
        rw [hn]
        exact List.mem_map.mpr ⟨x, hx, hEq⟩
      rw [foldl_doAnchor_not_mem R nl rest _ n hne, ← h1]
      simp only [doAnchor, if_pos hinst, updT, eq_self_iff_true, ite_true]
    · rw [List.foldl_cons]
      exact ih _ hnd.2 h1

/-- C2 as amended: for every netlist with distinct placement keys
(Python dict keys are unique), resolution assigns each placed anchor
instance exactly one final transform, whose rotation is the declared
rotation and whose position is the declared `(x, y)` WHEN the declared
rotation is zero; when it is nonzero the position is the declared point
rotated by that rotation about the world origin (`ref.move` followed by
`ref.rotate` about the default center), which differs from the declared
coordinates whenever `(x, y) ≠ (0, 0)` — see the counterexample.  (The
unamended claim asserts the declared coordinates even for nonzero
rotation.) -/
theorem C2_anchor_transform_exact (R : Rotator) (nl : Netlist)
    (n : String) (a : AnchorData)
    (hnd : (nl.placements.map Prod.fst).Nodup)
    (hmem : (n, PlaceEntry.anchorE a) ∈ nl.placements)
    (hinst : n ∈ instNames nl) :
    (resolveNetlist R nl).1 n
      = (if a.rotation = 0 then (⟨0, (a.x, a.y)⟩ : Transform)
         else ⟨a.rotation, rotP R a.rotation (a.x, a.y)⟩)
    ∧ (a.rotation = 0 → (resolveNetlist R nl).1 n = ⟨0, (a.x, a.y)⟩) := by
  have hA : (n, a) ∈ anchorsOf nl := mem_anchorsOf hmem
  have hndA : ((anchorsOf nl).map Prod.fst).Nodup :=
    hnd.sublist (anchorsOf_keys_sublist nl)
  have hrels : ∀ e ∈ relsOf nl, e.1 ≠ n := by
    intro e he hEq
    have hmem2 : (n, PlaceEntry.relE e.2) ∈ nl.placements := by
      rw [← hEq]
      exact mem_of_relsOf he
    exact PlaceEntry.noConfusion (eq_of_nodup_keys hnd hmem hmem2)
  have hkey : (resolveNetlist R nl).1 n = anchorTransform R a := by
    unfold resolveNetlist
    rw [foldl_doRel_not_mem R nl _ _ n hrels]
    exact foldl_doAnchor_mem R nl _ _ hndA hA hinst
  refine ⟨hkey, fun h0 => ?_⟩
  rw [hkey]
  unfold anchorTransform
  rw [if_pos h0]

/-- Witness for C2 as amended: a one-instance netlist anchored at
`(3, 4)` with rotation 0 resolves that instance to exactly
`⟨0, (3, 4)⟩`. -/
theorem C2_anchor_transform_exact_witness :
    (resolveNetlist RotQ
        { instances := [("a", [])],
          placements := [("a", PlaceEntry.anchorE ⟨3, 4, 0⟩)] }).1 "a"
      = ⟨0, (3, 4)⟩ :=
  (C2_anchor_transform_exact RotQ
    { instances := [("a", [])],
      placements := [("a", PlaceEntry.anchorE ⟨3, 4, 0⟩)] }
    "a" ⟨3, 4, 0⟩ (by simp) (by simp) (by simp [instNames])).2 rfl

/-- A single anchor declared at `(10, 0)` with rotation 90. -/
def anchorRotNetlist : Netlist :=
  { instances := [("a", [])],
    placements := [("a", PlaceEntry.anchorE ⟨10, 0, 90⟩)] }

/-- C2 counterexample: the anchor declared at `(10, 0)` with rotation
90 resolves to position `(0, 10)` — the declared point rotated about
the world origin — not to its declared coordinates `(10, 0)`. -/
theorem C2_anchor_rotation_cex :
    (resolveNetlist RotQ anchorRotNetlist).1 "a" = ⟨90, (0, 10)⟩
    ∧ (⟨90, (0, 10)⟩ : Transform) ≠ ⟨90, (10, 0)⟩ := by
  constructor
  · simp [resolveNetlist, anchorsOf, relsOf, doAnchor, doRel, instNames,
      updT, anchorTransform, rotP, RotQ, anchorRotNetlist,
      identityTransform] <;>
      norm_num [cosdQ, sindQ]
  · intro hEq
    have h2 := congrArg (fun t : Transform => t.pos.1) hEq
    norm_num at h2

/-- Two instances, each with an anchor (absolute) placement. -/
def twoAnchorNetlist (x1 y1 r1 x2 y2 r2 : ℚ) : Netlist :=
  { instances := [("a", []), ("b", [])],
    placements := [("a", PlaceEntry.anchorE ⟨x1, y1, r1⟩),
                   ("b", PlaceEntry.anchorE ⟨x2, y2, r2⟩)] }

/-- C3 as amended: the resolver performs no anchor-count validation.
For every pair of anchor placements (arbitrary coordinates and
rotations), resolution completes, places both instances at their
respective anchor transforms, and emits no diagnostic at all — there is
no `AmbiguousAnchor` (or any other fatal) outcome in the code, for zero
anchors or many.  (The unamended claim asserts a fatal
`AmbiguousAnchor` failure naming both instances.) -/
theorem C3_no_anchor_validation (R : Rotator) (x1 y1 r1 x2 y2 r2 : ℚ) :
    (resolveNetlist R (twoAnchorNetlist x1 y1 r1 x2 y2 r2)).2 = []
    ∧ (resolveNetlist R (twoAnchorNetlist x1 y1 r1 x2 y2 r2)).1 "a"
        = anchorTransform R ⟨x1, y1, r1⟩
    ∧ (resolveNetlist R (twoAnchorNetlist x1 y1 r1 x2 y2 r2)).1 "b"
        = anchorTransform R ⟨x2, y2, r2⟩ := by
  refine ⟨?_, ?_, ?_⟩ <;>
    simp [resolveNetlist, anchorsOf, relsOf, doAnchor, doRel, instNames,
      updT, twoAnchorNetlist, identityTransform]

/-- C3 counterexample: the concrete netlist with two anchors `a` at
`(10, 20)` and `b` at `(30, 40)` (rotations 0) resolves successfully —
both instances are placed at their declared coordinates and the
diagnostic list is empty; no `AmbiguousAnchor` failure occurs. -/
theorem C3_two_anchors_cex :
    (resolveNetlist RotQ (twoAnchorNetlist 10 20 0 30 40 0)).2 = []
    ∧ (resolveNetlist RotQ (twoAnchorNetlist 10 20 0 30 40 0)).1 "a"
        = ⟨0, (10, 20)⟩
    ∧ (resolveNetlist RotQ (twoAnchorNetlist 10 20 0 30 40 0)).1 "b"
        = ⟨0, (30, 40)⟩ := by
  refine ⟨?_, ?_, ?_⟩ <;>
    simp [resolveNetlist, anchorsOf, relsOf, doAnchor, doRel, instNames,
      updT, anchorTransform, twoAnchorNetlist, identityTransform]

/-- A cyclic pair of relative placements: `A` placed onto `B.p` and `B`
placed onto `A.p` (port orientations 0, zero rotation deltas). -/
def cyclicNetlist (pa1 pa2 pb1 pb2 dxA dyA dxB dyB : ℚ) : Netlist :=
  { instances :=
      [("A", [("p", ⟨(pa1, pa2), 0, 1⟩)]),
       ("B", [("p", ⟨(pb1, pb2), 0, 1⟩)])],
    placements :=
      [("A", PlaceEntry.relE ⟨"B", "p", "p", dxA, dyA, 0⟩),
       ("B", PlaceEntry.relE ⟨"A", "p", "p", dxB, dyB, 0⟩)] }

/-- A relative placement whose target instance does not exist. -/
def danglingNetlist (dx dy rot : ℚ) : Netlist :=
  { instances := [("A", [("p", ⟨(0, 0), 0, 1⟩)])],
    placements := [("A", PlaceEntry.relE ⟨"ghost", "p", "p", dx, dy, rot⟩)] }

/-- C4 as amended: the relative pass is a single pass in declaration
order, so resolution always terminates, but cycles are NOT detected:
for the cyclic pair, `A` is silently placed against the still-default
identity transform of `B` (visible in its resolved position, which is
based at the local port coordinates of the unplaced `B`), then `B` is
placed against the just-moved `A`, and the diagnostic list stays empty —
no `UnresolvedPlacement` is ever reported.  A dangling target produces
only a printed warning naming the instance and its missing target, and
leaves the instance at the identity transform; it is not a fatal error
and no residual-set failure exists.  (The unamended claim asserts a
fatal `UnresolvedPlacement` naming both cycle members.) -/
theorem C4_cycle_silently_placed (pa1 pa2 pb1 pb2 dxA dyA dxB dyB dx dy rot : ℚ) :
    (resolveNetlist RotQ (cyclicNetlist pa1 pa2 pb1 pb2 dxA dyA dxB dyB)).2 = []
    ∧ (resolveNetlist RotQ (cyclicNetlist pa1 pa2 pb1 pb2 dxA dyA dxB dyB)).1 "A"
        = ⟨180, (pb1 + pa1 + dxA, pb2 + pa2 + dyA)⟩
    ∧ (resolveNetlist RotQ (cyclicNetlist pa1 pa2 pb1 pb2 dxA dyA dxB dyB)).1 "B"
        = ⟨360, (dxA + dxB, dyA + dyB)⟩
    ∧ (resolveNetlist RotQ (danglingNetlist dx dy rot)).2
        = [Warn.missingTarget "A" "ghost"]
    ∧ (resolveNetlist RotQ (danglingNetlist dx dy rot)).1 "A"
        = identityTransform := by
  refine ⟨?_, ?_, ?_, ?_, ?_⟩
  · simp [resolveNetlist, anchorsOf, relsOf, doAnchor, doRel, portOf,
      lookupStr, instNames, updT, relTransform, connectTransform,
      worldPortPos, rotP, addP, subP, RotQ, cyclicNetlist, identityTransform]
  · simp [resolveNetlist, anchorsOf, relsOf, doAnchor, doRel, portOf,
      lookupStr, instNames, updT, relTransform, connectTransform,
      worldPortPos, rotP, addP, subP, RotQ, cyclicNetlist, identityTransform]
    norm_num [cosdQ, sindQ]
  · simp [resolveNetlist, anchorsOf, relsOf, doAnchor, doRel, portOf,
      lookupStr, instNames, updT, relTransform, connectTransform,
      worldPortPos, rotP, addP, subP, RotQ, cyclicNetlist, identityTransform]
    norm_num [cosdQ, sindQ]
    constructor <;> ring
  · simp [resolveNetlist, anchorsOf, relsOf, doAnchor, doRel, portOf,
      lookupStr, instNames, updT, relTransform, connectTransform,
      worldPortPos, rotP, addP, subP, RotQ, danglingNetlist, identityTransform]
  · simp [resolveNetlist, anchorsOf, relsOf, doAnchor, doRel, portOf,
      lookupStr, instNames, updT, relTransform, connectTransform,
      worldPortPos, rotP, addP, subP, RotQ, danglingNetlist, identityTransform]

/-- C4 counterexample: the concrete cycle with `A.p` at local `(1, 2)`
and `B.p` at local `(3, 4)` (all offsets zero) resolves with an EMPTY
diagnostic list and both members silently placed — `A` at
`⟨180, (4, 6)⟩` (computed against the unplaced `B`) and `B` at
`⟨360, (0, 0)⟩` — where the claim demands a fatal `UnresolvedPlacement`
naming both and no silent placement. -/
theorem C4_cycle_cex :
    (resolveNetlist RotQ (cyclicNetlist 1 2 3 4 0 0 0 0)).2 = []
    ∧ (resolveNetlist RotQ (cyclicNetlist 1 2 3 4 0 0 0 0)).1 "A"
        = ⟨180, (4, 6)⟩
    ∧ (resolveNetlist RotQ (cyclicNetlist 1 2 3 4 0 0 0 0)).1 "B"
        = ⟨360, (0, 0)⟩ := by
  refine ⟨?_, ?_, ?_⟩ <;>
    simp [resolveNetlist, anchorsOf, relsOf, doAnchor, doRel, portOf,
      lookupStr, instNames, updT, anchorTransform, relTransform,
      connectTransform, worldPortPos, rotP, addP, subP, RotQ,
      cyclicNetlist, identityTransform] <;>
    norm_num [cosdQ, sindQ]
